import Mathlib

/-!
Shallow embedding of `cached_interpolate` (src/cached_interpolate/interpolate.py).

Numbers are modelled as rationals, numpy arrays as lists of rationals, and the
mutable `CachingInterpolant` object as an explicit state record `Interp` that is
threaded through the operations.  Operations that can raise a Python exception
(`ValueError`, `IndexError`, numpy shape errors) return `Except`/`Option`.

The coefficient builders `build_linear_interpolant` and
`build_natural_cubic_spline` live in `cached_interpolate/build.py`, which is not
part of the sources given here; they are modelled from the specification
(section 4.2) and are marked as such in their doc comments.
-/

/-- Index of the last `true` entry of a boolean list, `none` when there is no
`true` entry.  This models the expression `np.where(cond)[0][-1]` used by
`_construct_cache`: the position of the last index at which `cond` holds. -/
def lastTrueIdx : List Bool → Option Nat
  | [] => none
  | b :: rest =>
    match lastTrueIdx rest with
    | some i => some (i + 1)
    | none => if b then some 0 else none

/-- Index of the first minimal entry of a list of rationals, modelling
`np.argmin` (which returns the first occurrence of the minimum).  Returns 0 on
the empty list, a case numpy rejects; all callers guard nonemptiness. -/
def argminIdxT : List ℚ → Nat
  | [] => 0
  | [_] => 0
  | a :: b :: rest =>
    let i := argminIdxT (b :: rest)
    if (b :: rest).getD i 0 < a then i + 1 else 0

/-- Per-point locator for the linear and cubic kinds
(interpolate.py, lines 154-158): 0 when `xval <= x_array[0]`, otherwise the
last index `j` with `x_array[j] < xval`.  The `getD 0` default is unreachable:
in the else branch index 0 already satisfies the condition whenever the knot
list is nonempty, which every caller guards. -/
def bracketIdx (x_array : List ℚ) (xval : ℚ) : Nat :=
  if xval ≤ x_array.headD 0 then 0
  else (lastTrueIdx (x_array.map (fun xj => decide (xval > xj)))).getD 0

/-- Per-point locator for the nearest kind (interpolate.py, lines 150-152):
`np.argmin(abs(xval - x_array))`. -/
def nearestIdx (x_array : List ℚ) (xval : ℚ) : Nat :=
  argminIdxT (x_array.map (fun xj => |xval - xj|))

/-- The `_data` attribute: a one-dimensional array for the nearest kind (the
value array itself), a two-dimensional coefficient table for linear and cubic. -/
inductive CoeffData where
  | onedim : List ℚ → CoeffData
  | twodim : List (List ℚ) → CoeffData
  deriving DecidableEq

/-- Modelled from the spec: `build_linear_interpolant` from
`cached_interpolate/build.py`, which is not among the given sources.
Specification 4.2: a 2 x (n-1) table with row 0 the value at the left knot of
each interval and row 1 the slope over that interval. -/
def build_linear_interpolant (xx yy : List ℚ) : List (List ℚ) :=
  [(List.range (xx.length - 1)).map (fun j => yy.getD j 0),
   (List.range (xx.length - 1)).map
     (fun j => (yy.getD (j + 1) 0 - yy.getD j 0) / (xx.getD (j + 1) 0 - xx.getD j 0))]

/-- Forward elimination pass of the Thomas algorithm for a tridiagonal system;
each row is (subdiagonal, diagonal, superdiagonal, right-hand side), and the
result pairs the transformed superdiagonal with the transformed right-hand
side. -/
def thomasForward (rows : List (ℚ × ℚ × ℚ × ℚ)) : List (ℚ × ℚ) :=
  (rows.foldl
    (fun acc r =>
      match r, acc with
      | (_, b, c, d), [] => [(c / b, d / b)]
      | (a, b, c, d), (cp, dp) :: _ =>
        (c / (b - a * cp), (d - a * dp) / (b - a * cp)) :: acc)
    []).reverse

/-- Back substitution pass of the Thomas algorithm. -/
def thomasBack (cpdp : List (ℚ × ℚ)) : List ℚ :=
  cpdp.reverse.foldl
    (fun acc r =>
      match acc with
      | [] => [r.2]
      | xnext :: _ => (r.2 - r.1 * xnext) :: acc)
    []

/-- Modelled from the spec: the second derivatives `M[0..n-1]` of the natural
cubic spline, with natural boundary conditions `M[0] = M[n-1] = 0` and the
interior values solved from the standard tridiagonal continuity system
(specification 4.2) by a Thomas pass. -/
def naturalSplineM (xx yy : List ℚ) : List ℚ :=
  let h := fun (j : Nat) => xx.getD (j + 1) 0 - xx.getD j 0
  let rows := (List.range (xx.length - 2)).map
    (fun j =>
      (h j, 2 * (h j + h (j + 1)), h (j + 1),
        6 * ((yy.getD (j + 2) 0 - yy.getD (j + 1) 0) / h (j + 1)
            - (yy.getD (j + 1) 0 - yy.getD j 0) / h j)))
  [(0 : ℚ)] ++ thomasBack (thomasForward rows) ++ [(0 : ℚ)]

/-- Modelled from the spec: `build_natural_cubic_spline` from
`cached_interpolate/build.py`, which is not among the given sources.
Specification 4.2: a 4 x (n-1) table of per-interval polynomial coefficients
in the local coordinate d = x - x_j. -/
def build_natural_cubic_spline (xx yy : List ℚ) : List (List ℚ) :=
  let M := naturalSplineM xx yy
  let h := fun (j : Nat) => xx.getD (j + 1) 0 - xx.getD j 0
  [(List.range (xx.length - 1)).map (fun j => yy.getD j 0),
   (List.range (xx.length - 1)).map
     (fun j => (yy.getD (j + 1) 0 - yy.getD j 0) / h j
               - h j * (2 * M.getD j 0 + M.getD (j + 1) 0) / 6),
   (List.range (xx.length - 1)).map (fun j => M.getD j 0 / 2),
   (List.range (xx.length - 1)).map (fun j => (M.getD (j + 1) 0 - M.getD j 0) / (6 * h j))]

/-- `CachingInterpolant.build` (interpolate.py, lines 106-131), for real-valued
data: dispatch on the kind string, returning `none` for an unknown kind (the
Python method falls through and returns `None`). -/
def build (kind : String) (x_array y_array : List ℚ) : Option CoeffData :=
  if kind = "cubic" then some (CoeffData.twodim (build_natural_cubic_spline x_array y_array))
  else if kind = "linear" then some (CoeffData.twodim (build_linear_interpolant x_array y_array))
  else if kind = "nearest" then some (CoeffData.onedim y_array)
  else none

/-- The mutable state of a `CachingInterpolant` instance: the `_kind`,
`x_array`, `y_array`, `_data`, `_idxs`, `_diffs`, `_cached` and `return_float`
attributes.  `_idxs`/`_diffs` start as `[]`, standing for the attributes being
unset before the first `_construct_cache` call; `_cached = false` guards every
read of them. -/
structure Interp where
  kind : String
  x_array : List ℚ
  y_array : List ℚ
  data : Option CoeffData
  idxs : List Nat
  diffs : List (List ℚ)
  cached : Bool
  return_float : Bool
  deriving DecidableEq

/-- The instance state produced by a successful `__init__` with the given
arguments: coefficient table built eagerly (via the `kind` property setter),
no locator cache, scalar flag false. -/
def initState (x y : List ℚ) (kind : String) : Interp :=
  { kind := kind, x_array := x, y_array := y, data := build kind x y,
    idxs := [], diffs := [], cached := false, return_float := false }

/-- `CachingInterpolant.__init__` (interpolate.py, lines 68-92).  The
`ValueError` raised for an invalid kind is modelled as `Except.error`; it fires
before `x_array`, `y_array`, `_data` or `_cached` are assigned, so no usable
instance state exists in that case. -/
def CachingInterpolant.init (x y : List ℚ) (kind : String) : Except String Interp :=
  if ["nearest", "linear", "cubic"].contains kind then
    Except.ok (initState x y kind)
  else Except.error "kind must be in [nearest, linear, cubic]"

/-- The `kind` property setter (interpolate.py, lines 98-104): store the new
kind and rebuild `_data`; nothing else is touched.  The
`bk.asarray(list(data))` round trip is the identity on the data model. -/
def setKind (s : Interp) (k : String) : Interp :=
  { s with kind := k, data := build k s.x_array s.y_array }

/-- Lines 182-184 of `__call__`: when new values are passed, replace `y_array`
and rebuild `_data`; nothing else is touched. -/
def updateY (s : Interp) (y : Option (List ℚ)) : Interp :=
  match y with
  | some yv => { s with y_array := yv, data := build s.kind s.x_array yv }
  | none => s

/-- The offset array `x_values - x_array[self._idxs]` computed by
`_construct_cache` for the linear and cubic kinds. -/
def offsetDiffs (x_array xvals : List ℚ) : List ℚ :=
  List.zipWith (fun xv i => xv - x_array.getD i 0) xvals (xvals.map (bracketIdx x_array))

/-- `CachingInterpolant._construct_cache` (interpolate.py, lines 133-167).
Returns `none` on an empty knot array, where Python raises (argmin of an empty
array for nearest, `x_array[0]` otherwise).  Note that `return_float` is only
ever set to true (when the query has size one), never reset, and that `_diffs`
is left untouched for the nearest kind. -/
def constructCacheS (s : Interp) (xvals : List ℚ) : Option Interp :=
  if s.x_array.isEmpty then none
  else if s.kind = "nearest" then
    some { s with cached := true,
                  return_float := if xvals.length = 1 then true else s.return_float,
                  idxs := xvals.map (nearestIdx s.x_array) }
  else
    some { s with cached := true,
                  return_float := if xvals.length = 1 then true else s.return_float,
                  idxs := xvals.map (bracketIdx s.x_array),
                  diffs :=
                    if s.kind = "cubic" then
                      [xvals.map (fun _ => (1 : ℚ)), offsetDiffs s.x_array xvals,
                       (offsetDiffs s.x_array xvals).map (fun t => t ^ 2),
                       (offsetDiffs s.x_array xvals).map (fun t => t ^ 3)]
                    else [xvals.map (fun _ => (1 : ℚ)), offsetDiffs s.x_array xvals] }

/-- `CachingInterpolant._call_nearest` (interpolate.py, lines 197-198):
`self._data[self._idxs]`, with `none` modelling an out-of-bounds fancy index
(and the unreachable case of a two-dimensional `_data` under the nearest
kind). -/
def callNearestS (s : Interp) : Option (List ℚ) :=
  match s.data with
  | some (CoeffData.onedim ys) => s.idxs.mapM (fun i => ys.get? i)
  | _ => none

/-- The fancy-indexing expression `table[:, idxs]`: every row of the table,
sampled at the given column indices; `none` models the `IndexError` raised
when some index is out of bounds. -/
def fancyCols (tbl : List (List ℚ)) (idxs : List Nat) : Option (List (List ℚ)) :=
  tbl.mapM (fun row => idxs.mapM (fun i => row.get? i))

/-- Elementwise product of two row-major matrices; `none` models the numpy
shape error when the shapes disagree. -/
def mulRows (a b : List (List ℚ)) : Option (List (List ℚ)) :=
  if a.length = b.length then
    (a.zip b).mapM (fun rr =>
      if rr.1.length = rr.2.length
      then some (List.zipWith (fun u v => u * v) rr.1 rr.2) else none)
  else none

/-- `np.sum(m, axis=0)` for a row-major matrix with rows of equal length. -/
def sumAxis0 : List (List ℚ) → List ℚ
  | [] => []
  | r :: rest => rest.foldl (fun acc row => List.zipWith (fun u v => u + v) acc row) r

/-- `CachingInterpolant._call_linear` (interpolate.py, lines 200-201):
`sum(data[:, idxs] * diffs, axis=0)`. -/
def callLinearS (s : Interp) : Option (List ℚ) :=
  match s.data with
  | some (CoeffData.twodim tbl) =>
    (fancyCols tbl s.idxs).bind (fun sel => (mulRows sel s.diffs).map sumAxis0)
  | _ => none

/-- `CachingInterpolant._call_cubic` (interpolate.py, lines 203-204): the same
expression as `_call_linear`. -/
def callCubicS (s : Interp) : Option (List ℚ) :=
  match s.data with
  | some (CoeffData.twodim tbl) =>
    (fancyCols tbl s.idxs).bind (fun sel => (mulRows sel s.diffs).map sumAxis0)
  | _ => none

/-- The result of `__call__`: a bare scalar when `return_float` holds,
otherwise the full output array. -/
inductive OutVal where
  | scalar : ℚ → OutVal
  | arr : List ℚ → OutVal
  deriving DecidableEq

/-- Whether a call result was unwrapped to a bare scalar. -/
def OutVal.isScalar : OutVal → Bool
  | OutVal.scalar _ => true
  | OutVal.arr _ => false

/-- The kind dispatch in `__call__` (interpolate.py, lines 187-192); for a
kind outside the three known ones, `out` is never assigned and Python raises,
modelled as `none`. -/
def dispatchKind (s : Interp) : Option (List ℚ) :=
  if s.kind = "cubic" then callCubicS s
  else if s.kind = "linear" then callLinearS s
  else if s.kind = "nearest" then callNearestS s
  else none

/-- `CachingInterpolant.__call__` (interpolate.py, lines 169-195): optional
value update, locator-cache rebuild when `_cached and use_cache` fails, kind
dispatch, and the scalar unwrap `out[0]` when `return_float` holds.  The
returned pair is the produced output together with the instance state after
the call. -/
def call (s : Interp) (x : List ℚ) (y : Option (List ℚ)) (use_cache : Bool) :
    Option (OutVal × Interp) :=
  let s1 := updateY s y
  (if s1.cached && use_cache then some s1 else constructCacheS s1 x).bind
    (fun s2 => (dispatchKind s2).bind
      (fun out =>
        if s2.return_float then (out.head?).map (fun v => (OutVal.scalar v, s2))
        else some (OutVal.arr out, s2)))

/-! Concrete instance states used by the hypothesis-bearing theorems
and their witnesses. -/

/-- A concrete linear-kind instance state with a locator cache already built
from the queries [1/2, 5/2] over the knots [0, 1, 2, 3], used to instantiate
hypothesis-bearing theorems on concrete data. -/
def exLin : Interp :=
  { kind := "linear", x_array := [0, 1, 2, 3], y_array := [0, 1, 0, 1],
    data := build "linear" [0, 1, 2, 3] [0, 1, 0, 1],
    idxs := [0, 2], diffs := [[1, 1], [1 / 2, 1 / 2]],
    cached := true, return_float := false }

/-- The state `exLin` after a value update to [1, 0, 1, 0]. -/
def exLinV2 : Interp :=
  { exLin with y_array := [1, 0, 1, 0], data := build "linear" [0, 1, 2, 3] [1, 0, 1, 0] }

/-- The state `exLin` after assigning the nearest kind. -/
def exLinToNearest : Interp := setKind exLin "nearest"

/-- The state obtained from `initState [0,1] [10,20] "nearest"` after a first
call at the single query [1/2] (which sets the scalar flag). -/
def exNear : Interp :=
  { kind := "nearest", x_array := [0, 1], y_array := [10, 20],
    data := build "nearest" [0, 1] [10, 20],
    idxs := [0], diffs := [], cached := true, return_float := true }

/-- The state `exNear` after a cache rebuild from the queries [0, 1]. -/
def exNearRebuilt : Interp := { exNear with idxs := [0, 1] }

/-- A fresh nearest-kind instance over the knots [0, 1, 2]. -/
def exNearC : Interp := initState [0, 1, 2] [5, 6, 7] "nearest"

/-- The state `exNearC` after building the locator cache from the single
query [19/10]. -/
def exNearCCached : Interp :=
  { exNearC with cached := true, return_float := true, idxs := [2] }

/-! Structural lemmas about the state transitions. -/

lemma constructCacheS_fields {s s' : Interp} {Q : List ℚ}
    (h : constructCacheS s Q = some s') :
    s'.x_array = s.x_array ∧ s'.kind = s.kind ∧ s'.y_array = s.y_array ∧
    s'.data = s.data ∧ s'.cached = true ∧
    s'.return_float = (decide (Q.length = 1) || s.return_float) := by
  unfold constructCacheS at h
  split at h
  · exact absurd h (by simp)
  · split at h <;>
    · injection h with h'
      subst h'
      refine ⟨rfl, rfl, rfl, rfl, rfl, ?_⟩
      by_cases hq : Q.length = 1 <;> simp [hq]

lemma updateY_none (s : Interp) : updateY s none = s := rfl

lemma updateY_some (s : Interp) (v : List ℚ) :
    updateY s (some v) = { s with y_array := v, data := build s.kind s.x_array v } := rfl

lemma updateY_return_float (s : Interp) (y : Option (List ℚ)) :
    (updateY s y).return_float = s.return_float := by cases y <;> rfl

lemma updateY_cached (s : Interp) (y : Option (List ℚ)) :
    (updateY s y).cached = s.cached := by cases y <;> rfl

/-- The state returned by a successful `__call__` is the state after the
(possible) value update and the (possible) cache rebuild. -/
lemma call_state {s : Interp} {x : List ℚ} {y : Option (List ℚ)} {uc : Bool}
    {out : OutVal} {s' : Interp} (h : call s x y uc = some (out, s')) :
    (if (updateY s y).cached && uc then some (updateY s y)
     else constructCacheS (updateY s y) x) = some s' := by
  unfold call at h
  rcases Option.bind_eq_some.mp h with ⟨s2, h2, h3⟩
  rcases Option.bind_eq_some.mp h3 with ⟨o, _, h4⟩
  split at h4
  · rcases Option.map_eq_some'.mp h4 with ⟨v, _, h5⟩
    injection h5 with h5a h5b
    subst h5b
    exact h2
  · injection h4 with h5
    injection h5 with h5a h5b
    subst h5b
    exact h2

/-! Claim theorems. -/

/-- C7: construction with a kind outside nearest/linear/cubic raises the
configuration error immediately, with no instance state produced; construction
with a valid kind builds the coefficient table eagerly and leaves no locator
cache (the cache flag is false, so the first evaluate always runs the
locator). -/
theorem init_kind_validation (x y : List ℚ) (kind : String) :
    (List.contains ["nearest", "linear", "cubic"] kind = false →
      CachingInterpolant.init x y kind
        = Except.error "kind must be in [nearest, linear, cubic]") ∧
    (List.contains ["nearest", "linear", "cubic"] kind = true →
      CachingInterpolant.init x y kind = Except.ok (initState x y kind) ∧
      (initState x y kind).data = build kind x y ∧
      (initState x y kind).cached = false ∧
      (initState x y kind).idxs = [] ∧ (initState x y kind).diffs = []) := by
  constructor
  · intro h
    unfold CachingInterpolant.init
    rw [h]
    rfl
  · intro h
    unfold CachingInterpolant.init
    rw [h]
    exact ⟨rfl, rfl, rfl, rfl, rfl⟩

/-- Witness for C7, at a concrete invalid kind and a concrete valid kind. -/
theorem init_kind_validation_inst :
    (CachingInterpolant.init [0, 1] [2, 3] "quadratic"
        = Except.error "kind must be in [nearest, linear, cubic]") ∧
    (CachingInterpolant.init [0, 1] [2, 3] "linear"
        = Except.ok (initState [0, 1] [2, 3] "linear") ∧
      (initState [0, 1] [2, 3] "linear").data = build "linear" [0, 1] [2, 3] ∧
      (initState [0, 1] [2, 3] "linear").cached = false ∧
      (initState [0, 1] [2, 3] "linear").idxs = [] ∧
      (initState [0, 1] [2, 3] "linear").diffs = []) :=
  ⟨(init_kind_validation [0, 1] [2, 3] "quadratic").1 (by decide),
   (init_kind_validation [0, 1] [2, 3] "linear").2 (by decide)⟩

/-- C8 counterexample: mismatched knot/value lengths raise no validation
error; construction with two knots and three values succeeds, and a later
value update to another mismatched array is also accepted (the call even
returns a result). -/
theorem length_mismatch_accepted_cex :
    (CachingInterpolant.init [0, 1] [5, 6, 7] "nearest").toOption
        = some (initState [0, 1] [5, 6, 7] "nearest") ∧
    (call (initState [0, 1] [5, 6, 7] "nearest") [1 / 2] (some [7, 8, 9]) true).isSome
        = true := by decide!

/-- C8 amended: the code performs no knot/value length validation at all:
construction accepts value arrays of mismatched length without error, and a
value update simply installs the mismatched array and rebuilds the
coefficient table. -/
theorem no_length_validation (x y y2 : List ℚ) (s : Interp)
    (_h : x.length ≠ y.length) (_h2 : s.x_array.length ≠ y2.length) :
    CachingInterpolant.init x y "nearest" = Except.ok (initState x y "nearest") ∧
    updateY s (some y2) = { s with y_array := y2, data := build s.kind s.x_array y2 } := by
  exact ⟨by simp [CachingInterpolant.init], rfl⟩

/-- Witness for C8 amended. -/
theorem no_length_validation_inst :
    CachingInterpolant.init [0, 1] [5, 6, 7] "nearest"
        = Except.ok (initState [0, 1] [5, 6, 7] "nearest") ∧
    updateY (initState [0, 1] [5, 6, 7] "nearest") (some [7, 8, 9])
        = { initState [0, 1] [5, 6, 7] "nearest" with
            y_array := [7, 8, 9],
            data := build (initState [0, 1] [5, 6, 7] "nearest").kind
              (initState [0, 1] [5, 6, 7] "nearest").x_array [7, 8, 9] } :=
  no_length_validation [0, 1] [5, 6, 7] [7, 8, 9]
    (initState [0, 1] [5, 6, 7] "nearest") (by decide) (by decide)

/-- C9: a call that passes a new value array while the locator cache is in use
changes only `y_array` and the coefficient table; the bracket indices, the
offset-power table, the cache flag and the scalar flag are untouched, so the
cached locator data survives the value update. -/
theorem value_update_preserves_locator_cache (s : Interp) (v2 Q : List ℚ)
    (out : OutVal) (s' : Interp) (hc : s.cached = true)
    (h : call s Q (some v2) true = some (out, s')) :
    s'.idxs = s.idxs ∧ s'.diffs = s.diffs ∧ s'.cached = s.cached ∧
    s'.return_float = s.return_float ∧ s'.x_array = s.x_array ∧ s'.kind = s.kind ∧
    s'.y_array = v2 ∧ s'.data = build s.kind s.x_array v2 := by
  have hst := call_state h
  rw [updateY_some] at hst
  simp only [hc] at hst
  simp only [Bool.and_self, if_pos] at hst
  injection hst with h'
  subst h'
  exact ⟨rfl, rfl, hc.symm ▸ rfl, rfl, rfl, rfl, rfl, rfl⟩

/-- Witness for C9. -/
theorem value_update_preserves_locator_cache_inst :
    exLinV2.idxs = exLin.idxs ∧ exLinV2.diffs = exLin.diffs ∧
    exLinV2.cached = exLin.cached ∧ exLinV2.return_float = exLin.return_float ∧
    exLinV2.x_array = exLin.x_array ∧ exLinV2.kind = exLin.kind ∧
    exLinV2.y_array = [1, 0, 1, 0] ∧
    exLinV2.data = build exLin.kind exLin.x_array [1, 0, 1, 0] :=
  value_update_preserves_locator_cache exLin [1, 0, 1, 0] [1 / 2, 5 / 2]
    (OutVal.arr [1 / 2, 1 / 2]) exLinV2 (by decide!) (by decide!)

/-- C10: assigning a new kind rebuilds the coefficient table for the new kind
but leaves the locator cache marked valid with its bracket indices and
offset-power table unchanged; a subsequent evaluate with caching enabled then
runs on exactly that state, combining the new coefficient table with the
locator data built under the previous kind. -/
theorem set_kind_keeps_locator_cache (s : Interp) (k : String) (Q : List ℚ)
    (out : OutVal) (s' : Interp) (hc : s.cached = true)
    (h : call (setKind s k) Q none true = some (out, s')) :
    (setKind s k).kind = k ∧ (setKind s k).data = build k s.x_array s.y_array ∧
    (setKind s k).cached = true ∧ (setKind s k).idxs = s.idxs ∧
    (setKind s k).diffs = s.diffs ∧ (setKind s k).return_float = s.return_float ∧
    s' = setKind s k ∧ s'.idxs = s.idxs ∧ s'.diffs = s.diffs ∧
    s'.data = build k s.x_array s.y_array := by
  have hst := call_state h
  rw [updateY_none] at hst
  have hck : (setKind s k).cached = true := hc
  simp only [hck, Bool.and_self, if_pos] at hst
  injection hst with h'
  subst h'
  exact ⟨rfl, rfl, hck, rfl, rfl, rfl, rfl, rfl, rfl, rfl⟩

/-- Witness for C10: switch the cached linear instance to the nearest kind and
evaluate with caching on; the stale bracket indices [0, 2] are reused against
the new coefficient table. -/
theorem set_kind_keeps_locator_cache_inst :
    exLinToNearest.kind = "nearest" ∧
    exLinToNearest.data = build "nearest" exLin.x_array exLin.y_array ∧
    exLinToNearest.cached = true ∧ exLinToNearest.idxs = exLin.idxs ∧
    exLinToNearest.diffs = exLin.diffs ∧
    exLinToNearest.return_float = exLin.return_float ∧
    exLinToNearest = setKind exLin "nearest" ∧
    exLinToNearest.idxs = exLin.idxs ∧ exLinToNearest.diffs = exLin.diffs ∧
    exLinToNearest.data = build "nearest" exLin.x_array exLin.y_array :=
  set_kind_keeps_locator_cache exLin "nearest" [9] (OutVal.arr [0, 0])
    exLinToNearest (by decide!) (by decide!)

/-- C2 counterexample: with a locator cache built from Q1 = [1/2, 5/2], a call
at the different query array Q2 = [0, 1] with `use_cache=True` does not
rebuild the cache; it returns the interpolant values at the points of Q1
([1/2, 1/2]) although the interpolant values at the points of Q2 are [0, 1]
(as a fresh uncached evaluation shows). -/
theorem stale_cache_ignores_new_queries_cex :
    ((CachingInterpolant.init [0, 1, 2, 3] [0, 1, 0, 1] "linear").toOption.bind
        (fun s0 => (call s0 [1 / 2, 5 / 2] none true).bind
          (fun p => (call p.2 [0, 1] none true).map (fun q => q.1))))
      = some (OutVal.arr [1 / 2, 1 / 2]) ∧
    ((CachingInterpolant.init [0, 1, 2, 3] [0, 1, 0, 1] "linear").toOption.bind
        (fun s0 => (call s0 [0, 1] none false).map (fun q => q.1)))
      = some (OutVal.arr [0, 1]) ∧
    OutVal.arr [1 / 2, 1 / 2] ≠ OutVal.arr ([0, 1] : List ℚ) := by decide!

/-- C2 amended: a call with `use_cache=True` on an instance whose locator
cache is valid never rebuilds the cache, regardless of whether the query
array differs from the cached one: the call result is entirely independent of
the query argument, and the cached bracket indices and offset powers are kept.
The cache is rebuilt only when `use_cache=False` or when no cache exists. -/
theorem cached_call_ignores_query_argument (s : Interp) (Q2 Q2' : List ℚ)
    (out : OutVal) (s' : Interp) (hc : s.cached = true)
    (h2 : call s Q2 none true = some (out, s')) :
    call s Q2' none true = some (out, s') ∧
    s'.idxs = s.idxs ∧ s'.diffs = s.diffs ∧ s'.cached = true := by
  have heq : call s Q2' none true = call s Q2 none true := by
    unfold call
    rw [updateY_none]
    simp only [hc, Bool.and_self, if_pos]
  have hst := call_state h2
  rw [updateY_none] at hst
  simp only [hc, Bool.and_self, if_pos] at hst
  injection hst with h'
  subst h'
  exact ⟨heq.trans h2, rfl, rfl, hc⟩

/-- Witness for C2 amended: the cached instance answers the query [0, 1] with
the outputs for the cached queries [1/2, 5/2]. -/
theorem cached_call_ignores_query_argument_inst :
    call exLin [7, 8, 9] none true = some (OutVal.arr [1 / 2, 1 / 2], exLin) ∧
    exLin.idxs = exLin.idxs ∧ exLin.diffs = exLin.diffs ∧ exLin.cached = true :=
  cached_call_ignores_query_argument exLin [0, 1] [7, 8, 9]
    (OutVal.arr [1 / 2, 1 / 2]) exLin (by decide!) (by decide!)

/-- C3 counterexample: the scalar-result flag is not reset when the cache is
rebuilt from a multi-element query.  After a single scalar query, a two-element
query with `use_cache=False` (which rebuilds the locator cache from the new
queries) still returns a single scalar (the first output), not a length-2
output sequence. -/
theorem scalar_flag_sticky_cex :
    ((CachingInterpolant.init [0, 1] [10, 20] "nearest").toOption.bind
        (fun s0 => (call s0 [1 / 2] none true).bind
          (fun p => (call p.2 [0, 1] none false).map (fun q => q.1))))
      = some (OutVal.scalar 10) ∧
    (OutVal.scalar 10).isScalar = true := by decide!

/-- C3 amended: on every cache rebuild the scalar flag becomes true when the
query has size one and otherwise keeps its previous value (it is never reset
to false), and the call result is unwrapped to a bare scalar exactly when the
resulting flag is true. -/
theorem scalar_flag_update_and_unwrap (s : Interp) (x : List ℚ)
    (y : Option (List ℚ)) (out : OutVal) (s' : Interp)
    (h : call s x y false = some (out, s')) :
    s'.return_float = (decide (x.length = 1) || s.return_float) ∧
    out.isScalar = s'.return_float := by
  unfold call at h
  rcases Option.bind_eq_some.mp h with ⟨s2, h2, h3⟩
  simp only [Bool.and_false, Bool.false_eq_true, if_false] at h2
  have hf := constructCacheS_fields h2
  rcases Option.bind_eq_some.mp h3 with ⟨o, _, h4⟩
  have hrf : s2.return_float = (decide (x.length = 1) || s.return_float) := by
    rw [hf.2.2.2.2.2, updateY_return_float]
  by_cases hb : s2.return_float = true
  · rw [if_pos hb] at h4
    rcases Option.map_eq_some'.mp h4 with ⟨v, _, h5⟩
    rw [Prod.mk.injEq] at h5
    obtain ⟨h5a, h5b⟩ := h5
    subst h5a
    subst h5b
    exact ⟨hrf, by simp [OutVal.isScalar, hb]⟩
  · rw [if_neg hb] at h4
    rw [Option.some.injEq, Prod.mk.injEq] at h4
    obtain ⟨h5a, h5b⟩ := h4
    subst h5a
    subst h5b
    have hbf : s2.return_float = false := by
      simp only [Bool.not_eq_true] at hb
      exact hb
    exact ⟨hrf, by simp [OutVal.isScalar, hbf]⟩

/-- Witness for C3 amended: rebuilding from a two-element query keeps the
scalar flag true and the output stays a bare scalar. -/
theorem scalar_flag_update_and_unwrap_inst :
    exNearRebuilt.return_float
        = (decide (([0, 1] : List ℚ).length = 1) || exNear.return_float) ∧
    (OutVal.scalar 10).isScalar = exNearRebuilt.return_float :=
  scalar_flag_update_and_unwrap exNear [0, 1] none (OutVal.scalar 10)
    exNearRebuilt (by decide!)

/-! Index lemmas for the locator functions. -/

lemma getD_eq_get_of_lt {α : Type} (l : List α) (d : α) (i : Nat)
    (h : i < l.length) : l.getD i d = l.get ⟨i, h⟩ := by
  rw [List.getD_eq_getElem?_getD, List.getElem?_eq_getElem h]
  rfl

lemma getD_map_eq_get {α β : Type} (f : α → β) (l : List α) (d : β) (i : Nat)
    (h : i < l.length) : (l.map f).getD i d = f (l.get ⟨i, h⟩) := by
  rw [List.getD_eq_getElem?_getD, List.getElem?_map, List.getElem?_eq_getElem h]
  rfl

lemma lastTrueIdx_eq_none_iff {bs : List Bool} :
    lastTrueIdx bs = none ↔ ∀ j, j < bs.length → bs.getD j false = false := by
  induction bs with
  | nil => simp [lastTrueIdx]
  | cons b rest ih =>
    cases hr : lastTrueIdx rest with
    | some i =>
      simp only [lastTrueIdx, hr]
      constructor
      · intro h
        exact absurd h (by simp)
      · intro h
        have hall : ∀ j, j < rest.length → rest.getD j false = false := by
          intro j hjl
          exact h (j + 1) (by simpa using Nat.succ_lt_succ hjl)
        exact absurd hr (by rw [ih.mpr hall]; simp)
    | none =>
      simp only [lastTrueIdx, hr]
      constructor
      · intro h j hjl
        cases j with
        | zero =>
          by_cases hb : b = true
          · rw [if_pos hb] at h
            exact absurd h (by simp)
          · simpa using (Bool.not_eq_true b).mp hb
        | succ j' =>
          exact ih.mp hr j' (by simpa using Nat.lt_of_succ_lt_succ hjl)
      · intro h
        have hb : b = false := by simpa using h 0 (by simp)
        rw [hb]
        simp

lemma lastTrueIdx_spec {bs : List Bool} {i : Nat} (h : lastTrueIdx bs = some i) :
    i < bs.length ∧ bs.getD i false = true ∧
    ∀ j, i < j → j < bs.length → bs.getD j false = false := by
  induction bs generalizing i with
  | nil => exact absurd h (by simp [lastTrueIdx])
  | cons b rest ih =>
    cases hr : lastTrueIdx rest with
    | some k =>
      simp only [lastTrueIdx, hr, Option.some.injEq] at h
      subst h
      obtain ⟨hk1, hk2, hk3⟩ := ih hr
      refine ⟨by simpa using Nat.succ_lt_succ hk1, by simpa using hk2, ?_⟩
      intro j hij hjl
      cases j with
      | zero => exact absurd hij (by simp)
      | succ j' =>
        exact hk3 j' (Nat.lt_of_succ_lt_succ hij) (by simpa using Nat.lt_of_succ_lt_succ hjl)
    | none =>
      simp only [lastTrueIdx, hr] at h
      by_cases hb : b = true
      · rw [if_pos hb] at h
        injection h with h'
        subst h'
        refine ⟨by simp, by simpa using hb, ?_⟩
        intro j hij hjl
        cases j with
        | zero => exact absurd hij (by simp)
        | succ j' =>
          exact lastTrueIdx_eq_none_iff.mp hr j' (by simpa using Nat.lt_of_succ_lt_succ hjl)
      · rw [if_neg hb] at h
        exact absurd h (by simp)

lemma lastTrueIdx_eq_some_of {bs : List Bool} {i : Nat} (h1 : i < bs.length)
    (h2 : bs.getD i false = true)
    (h3 : ∀ j, i < j → j < bs.length → bs.getD j false = false) :
    lastTrueIdx bs = some i := by
  induction bs generalizing i with
  | nil => exact absurd h1 (by simp)
  | cons b rest ih =>
    cases i with
    | zero =>
      have hrest : lastTrueIdx rest = none := by
        rw [lastTrueIdx_eq_none_iff]
        intro j hjl
        exact h3 (j + 1) (Nat.succ_pos j) (by simpa using Nat.succ_lt_succ hjl)
      have hb : b = true := by simpa using h2
      simp [lastTrueIdx, hrest, hb]
    | succ i' =>
      have hrest : lastTrueIdx rest = some i' := by
        refine ih (by simpa using Nat.lt_of_succ_lt_succ h1) (by simpa using h2) ?_
        intro j hij hjl
        exact h3 (j + 1) (Nat.succ_lt_succ hij) (by simpa using Nat.succ_lt_succ hjl)
      simp [lastTrueIdx, hrest]

/-- C4 counterexample: the query 1 lies exactly on the interior knot at index
1 of [0, 1, 2, 3], yet the locator produces bracket index 0 (the interval
ending at that knot), not index 1 (the interval starting at that knot) as the
right-continuous reading of the claim demands. -/
theorem interior_knot_bracket_cex :
    (constructCacheS (initState [0, 1, 2, 3] [0, 1, 0, 1] "linear") [1]).map Interp.idxs
        = some [0] ∧ ([0] : List Nat) ≠ [1] := by decide!

/-- C4 amended: for linear/cubic the locator computes
`indices[i] = largest j with knots[j] < queries[i]`, clamped to 0 when
`queries[i] ≤ knots[0]`; consequently a query exactly equal to an interior
knot `knots[k]` receives index `k - 1`, the interval ENDING at that knot
(left-continuous bracketing), not the interval starting at it. -/
theorem bracket_index_characterization (x : List ℚ) (q : ℚ) (hne : x ≠ [])
    (hx : List.Sorted (fun a b => a < b) x) (j k : Nat)
    (hj : j < x.length) (hk : k < x.length) :
    (q ≤ x.headD 0 → bracketIdx x q = 0) ∧
    (x.headD 0 < q →
      bracketIdx x q < x.length ∧ x.getD (bracketIdx x q) 0 < q ∧
      (x.getD j 0 < q → j ≤ bracketIdx x q)) ∧
    (0 < k → q = x.getD k 0 → bracketIdx x q = k - 1) := by
  have hlen0 : 0 < x.length := List.length_pos.mpr hne
  have hhead0 : x.headD 0 = x.get ⟨0, hlen0⟩ := by
    cases x with
    | nil => exact absurd rfl hne
    | cons a t => rfl
  refine ⟨?_, ?_, ?_⟩
  · intro h
    unfold bracketIdx
    rw [if_pos h]
  · intro hh
    unfold bracketIdx
    rw [if_neg (not_le.mpr hh)]
    have hb0 : (x.map (fun xj => decide (q > xj))).getD 0 false = true := by
      rw [getD_map_eq_get _ _ _ 0 hlen0]
      rw [hhead0] at hh
      simpa using hh
    cases hr : lastTrueIdx (x.map (fun xj => decide (q > xj))) with
    | none =>
      have := lastTrueIdx_eq_none_iff.mp hr 0 (by rw [List.length_map]; exact hlen0)
      rw [this] at hb0
      exact absurd hb0 (by simp)
    | some i =>
      obtain ⟨hi1, hi2, hi3⟩ := lastTrueIdx_spec hr
      rw [List.length_map] at hi1
      simp only [Option.getD_some]
      refine ⟨hi1, ?_, ?_⟩
      · rw [getD_map_eq_get _ _ _ i hi1] at hi2
        rw [getD_eq_get_of_lt x 0 i hi1]
        simpa using hi2
      · intro hjq
        by_contra hcon
        push_neg at hcon
        have hfalse := hi3 j hcon (by rw [List.length_map]; exact hj)
        rw [getD_map_eq_get _ _ _ j hj] at hfalse
        rw [getD_eq_get_of_lt x 0 j hj] at hjq
        simp only [decide_eq_false_iff_not, not_lt] at hfalse
        exact absurd hjq (not_lt.mpr hfalse)
  · intro hk0 hq
    have hkm : k - 1 < x.length := by omega
    have hhead : x.headD 0 < q := by
      rw [hhead0, hq, getD_eq_get_of_lt x 0 k hk]
      exact hx.rel_get_of_lt (Fin.mk_lt_mk.mpr hk0)
    unfold bracketIdx
    rw [if_neg (not_le.mpr hhead)]
    have hsome : lastTrueIdx (x.map (fun xj => decide (q > xj))) = some (k - 1) := by
      apply lastTrueIdx_eq_some_of
      · rw [List.length_map]
        exact hkm
      · rw [getD_map_eq_get _ _ _ (k - 1) hkm]
        have hlt : x.get ⟨k - 1, hkm⟩ < x.get ⟨k, hk⟩ :=
          hx.rel_get_of_lt (Fin.mk_lt_mk.mpr (by omega))
        rw [hq, getD_eq_get_of_lt x 0 k hk]
        simpa using hlt
      · intro j2 hij hjl
        rw [List.length_map] at hjl
        rw [getD_map_eq_get _ _ _ j2 hjl]
        have hjk : k ≤ j2 := by omega
        have hle : x.get ⟨k, hk⟩ ≤ x.get ⟨j2, hjl⟩ := by
          rcases Nat.eq_or_lt_of_le hjk with heq | hlt
          · exact le_of_eq (congrArg x.get (Fin.ext heq))
          · exact le_of_lt (hx.rel_get_of_lt (Fin.mk_lt_mk.mpr hlt))
        rw [hq, getD_eq_get_of_lt x 0 k hk]
        simpa using not_lt.mpr hle
    rw [hsome]
    rfl

/-- Witness for C4 amended, at knots [0, 1, 2, 3] and the interior-knot query
1 (with k = 1, j = 0). -/
theorem bracket_index_characterization_inst :
    ((1 : ℚ) ≤ ([0, 1, 2, 3] : List ℚ).headD 0 → bracketIdx [0, 1, 2, 3] 1 = 0) ∧
    (([0, 1, 2, 3] : List ℚ).headD 0 < 1 →
      bracketIdx [0, 1, 2, 3] 1 < ([0, 1, 2, 3] : List ℚ).length ∧
      ([0, 1, 2, 3] : List ℚ).getD (bracketIdx [0, 1, 2, 3] 1) 0 < 1 ∧
      (([0, 1, 2, 3] : List ℚ).getD 0 0 < 1 → 0 ≤ bracketIdx [0, 1, 2, 3] 1)) ∧
    (0 < 1 → (1 : ℚ) = ([0, 1, 2, 3] : List ℚ).getD 1 0 →
      bracketIdx [0, 1, 2, 3] 1 = 1 - 1) :=
  bracket_index_characterization [0, 1, 2, 3] 1 (by decide!) (by decide!) 0 1
    (by decide!) (by decide!)

lemma argminIdxT_spec (l : List ℚ) (hne : l ≠ []) :
    argminIdxT l < l.length ∧
    ∀ j, j < l.length →
      l.getD (argminIdxT l) 0 ≤ l.getD j 0 ∧
      (j < argminIdxT l → l.getD (argminIdxT l) 0 < l.getD j 0) := by
  induction l with
  | nil => exact absurd rfl hne
  | cons a tl ih =>
    cases tl with
    | nil =>
      refine ⟨by simp [argminIdxT], ?_⟩
      intro j hj
      have hj0 : j = 0 := by simpa [Nat.lt_one_iff] using hj
      subst hj0
      simp [argminIdxT]
    | cons b rest =>
      obtain ⟨ih1, ih2⟩ := ih (by simp)
      have hunfold : argminIdxT (a :: b :: rest)
          = if (b :: rest).getD (argminIdxT (b :: rest)) 0 < a
            then argminIdxT (b :: rest) + 1 else 0 := rfl
      by_cases hlt : (b :: rest).getD (argminIdxT (b :: rest)) 0 < a
      · have heq : argminIdxT (a :: b :: rest) = argminIdxT (b :: rest) + 1 := by
          rw [hunfold, if_pos hlt]
        rw [heq]
        refine ⟨by simpa using Nat.succ_lt_succ ih1, ?_⟩
        intro j hj
        cases j with
        | zero =>
          rw [List.getD_cons_succ, List.getD_cons_zero]
          exact ⟨le_of_lt hlt, fun _ => hlt⟩
        | succ j' =>
          have hj' : j' < (b :: rest).length := by simpa using Nat.lt_of_succ_lt_succ hj
          obtain ⟨h1, h2⟩ := ih2 j' hj'
          rw [List.getD_cons_succ, List.getD_cons_succ]
          exact ⟨h1, fun hlt2 => h2 (Nat.lt_of_succ_lt_succ hlt2)⟩
      · have heq : argminIdxT (a :: b :: rest) = 0 := by
          rw [hunfold, if_neg hlt]
        rw [heq]
        refine ⟨by simp, ?_⟩
        intro j hj
        cases j with
        | zero => exact ⟨le_refl _, fun hcon => absurd hcon (by simp)⟩
        | succ j' =>
          have hj' : j' < (b :: rest).length := by simpa using Nat.lt_of_succ_lt_succ hj
          have h1 := (ih2 j' hj').1
          rw [List.getD_cons_succ, List.getD_cons_zero]
          exact ⟨le_trans (not_lt.mp hlt) h1, fun hcon => absurd hcon (by simp)⟩

/-- C5: for the nearest kind the locator assigns every query point the index
of a nearest knot, and when a query is equidistant from two knots the lower
index is chosen: every strictly smaller index is at a strictly larger
distance. -/
theorem nearest_locator_argmin_first (s : Interp) (xvals : List ℚ) (s' : Interp)
    (hk : s.kind = "nearest") (h : constructCacheS s xvals = some s')
    (i j : Nat) (hi : i < xvals.length) (hj : j < s.x_array.length) :
    s'.idxs.length = xvals.length ∧
    s'.idxs.getD i 0 < s.x_array.length ∧
    |xvals.getD i 0 - s.x_array.getD (s'.idxs.getD i 0) 0|
        ≤ |xvals.getD i 0 - s.x_array.getD j 0| ∧
    (j < s'.idxs.getD i 0 →
      |xvals.getD i 0 - s.x_array.getD (s'.idxs.getD i 0) 0|
        < |xvals.getD i 0 - s.x_array.getD j 0|) := by
  have hxlen : 0 < s.x_array.length := lt_of_le_of_lt (Nat.zero_le j) hj
  have hxe : ¬s.x_array.isEmpty = true := by
    rw [List.isEmpty_iff]
    exact List.ne_nil_of_length_pos hxlen
  unfold constructCacheS at h
  rw [if_neg hxe, if_pos hk] at h
  injection h with h'
  subst h'
  simp only []
  set v := xvals.getD i 0 with hv
  have hidx : (xvals.map (nearestIdx s.x_array)).getD i 0 = nearestIdx s.x_array v := by
    rw [getD_map_eq_get _ _ _ i hi, hv, getD_eq_get_of_lt xvals 0 i hi]
  set dl := s.x_array.map (fun xj => |v - xj|) with hdl
  have hdlne : dl ≠ [] := by
    intro hcon
    have hlen : s.x_array.length = 0 := by
      have := congrArg List.length hcon
      simpa [hdl] using this
    omega
  obtain ⟨ha1, ha2⟩ := argminIdxT_spec dl hdlne
  rw [List.length_map] at ha1
  have hdli : ∀ m (hm : m < s.x_array.length), dl.getD m 0 = |v - s.x_array.getD m 0| := by
    intro m hm
    rw [hdl, getD_map_eq_get _ _ _ m hm, getD_eq_get_of_lt s.x_array 0 m hm]
  have hnear : nearestIdx s.x_array v = argminIdxT dl := rfl
  refine ⟨by simp, ?_, ?_, ?_⟩
  · rw [hidx, hnear]
    exact ha1
  · rw [hidx, hnear]
    have := (ha2 j (by rw [hdl, List.length_map]; exact hj)).1
    rw [hdli (argminIdxT dl) ha1, hdli j hj] at this
    exact this
  · rw [hidx, hnear]
    intro hlt
    have := (ha2 j (by rw [hdl, List.length_map]; exact hj)).2 hlt
    rw [hdli (argminIdxT dl) ha1, hdli j hj] at this
    exact this

/-- Witness for C5, at the query 19/10 over the knots [0, 1, 2] (chosen index
2; the strictly smaller index 0 is at a strictly larger distance). -/
theorem nearest_locator_argmin_first_inst :
    exNearCCached.idxs.length = ([19 / 10] : List ℚ).length ∧
    exNearCCached.idxs.getD 0 0 < exNearC.x_array.length ∧
    |([19 / 10] : List ℚ).getD 0 0 - exNearC.x_array.getD (exNearCCached.idxs.getD 0 0) 0|
        ≤ |([19 / 10] : List ℚ).getD 0 0 - exNearC.x_array.getD 0 0| ∧
    (0 < exNearCCached.idxs.getD 0 0 →
      |([19 / 10] : List ℚ).getD 0 0 - exNearC.x_array.getD (exNearCCached.idxs.getD 0 0) 0|
        < |([19 / 10] : List ℚ).getD 0 0 - exNearC.x_array.getD 0 0|) :=
  nearest_locator_argmin_first exNearC [19 / 10] exNearCCached (by decide!)
    (by decide!) 0 0 (by decide!) (by decide!)

/-! Shape facts about the modelled coefficient tables, and evaluator
equations. -/

lemma build_linear_interpolant_head_length (xx yy : List ℚ) :
    ∃ r0 rest, build_linear_interpolant xx yy = r0 :: rest ∧ r0.length = xx.length - 1 := by
  refine ⟨_, _, rfl, ?_⟩
  simp [build_linear_interpolant]

lemma build_natural_cubic_spline_head_length (xx yy : List ℚ) :
    ∃ r0 rest, build_natural_cubic_spline xx yy = r0 :: rest ∧ r0.length = xx.length - 1 := by
  refine ⟨_, _, rfl, ?_⟩
  simp [build_natural_cubic_spline]

lemma build_linear_eq (x y : List ℚ) :
    build "linear" x y = some (CoeffData.twodim (build_linear_interpolant x y)) := rfl

lemma build_cubic_eq (x y : List ℚ) :
    build "cubic" x y = some (CoeffData.twodim (build_natural_cubic_spline x y)) := rfl

lemma callLinearS_twodim (s : Interp) (tbl : List (List ℚ))
    (h : s.data = some (CoeffData.twodim tbl)) :
    callLinearS s = (fancyCols tbl s.idxs).bind
      (fun sel => (mulRows sel s.diffs).map sumAxis0) := by
  unfold callLinearS
  rw [h]

lemma callCubicS_twodim (s : Interp) (tbl : List (List ℚ))
    (h : s.data = some (CoeffData.twodim tbl)) :
    callCubicS s = (fancyCols tbl s.idxs).bind
      (fun sel => (mulRows sel s.diffs).map sumAxis0) := by
  unfold callCubicS
  rw [h]

lemma fancyCols_single_oob (r0 : List ℚ) (rest : List (List ℚ)) (k : Nat)
    (hlen : r0.length ≤ k) : fancyCols (r0 :: rest) [k] = none := by
  unfold fancyCols
  rw [List.mapM_cons]
  have hrow : ([k].mapM r0.get? : Option (List ℚ)) = none := by
    rw [List.mapM_cons]
    rw [List.get?_eq_none.mpr hlen]
    rfl
  rw [hrow]
  rfl

/-- The locator index for a query strictly above the last knot is `n - 1`,
one past the last valid coefficient column. -/
lemma bracketIdx_top (x : List ℚ) (q : ℚ) (hlen : 0 < x.length)
    (hx : List.Sorted (fun a b => a < b) x)
    (hq : x.getD (x.length - 1) 0 < q) :
    bracketIdx x q = x.length - 1 := by
  have hne : x ≠ [] := List.ne_nil_of_length_pos hlen
  have hnm : x.length - 1 < x.length := by omega
  have hhead0 : x.headD 0 = x.get ⟨0, hlen⟩ := by
    cases x with
    | nil => exact absurd rfl hne
    | cons a t => rfl
  have hq' : x.get ⟨x.length - 1, hnm⟩ < q := by
    rwa [getD_eq_get_of_lt x 0 _ hnm] at hq
  have hle0 : x.get ⟨0, hlen⟩ ≤ x.get ⟨x.length - 1, hnm⟩ := by
    rcases Nat.eq_or_lt_of_le (Nat.zero_le (x.length - 1)) with heq | hlt
    · exact le_of_eq (congrArg x.get (Fin.ext heq))
    · exact le_of_lt (hx.rel_get_of_lt (Fin.mk_lt_mk.mpr hlt))
  have hhead : x.headD 0 < q := lt_of_le_of_lt (hhead0 ▸ hle0) hq'
  unfold bracketIdx
  rw [if_neg (not_le.mpr hhead)]
  have hsome : lastTrueIdx (x.map (fun xj => decide (q > xj)))
      = some (x.length - 1) := by
    apply lastTrueIdx_eq_some_of
    · rw [List.length_map]
      exact hnm
    · rw [getD_map_eq_get _ _ _ _ hnm]
      simpa using hq'
    · intro j hij hjl
      rw [List.length_map] at hjl
      exact absurd hjl (by omega)
  rw [hsome]
  rfl

/-- C6 counterexample: with linear kind over the knots [0, 1, 2], the query 5
(above the last knot) makes evaluation fail with an out-of-bounds access into
the 2-column coefficient table instead of completing and returning a value. -/
theorem extrapolation_out_of_bounds_cex :
    (CachingInterpolant.init [0, 1, 2] [0, 1, 0] "linear").toOption
        = some (initState [0, 1, 2] [0, 1, 0] "linear") ∧
    call (initState [0, 1, 2] [0, 1, 0] "linear") [5] none false = none := by decide!

lemma constructCacheS_idxs_bracket {s s' : Interp} {Q : List ℚ}
    (h : constructCacheS s Q = some s') (hk : ¬s.kind = "nearest") :
    s'.idxs = Q.map (bracketIdx s.x_array) := by
  unfold constructCacheS at h
  by_cases he : s.x_array.isEmpty = true
  · rw [if_pos he] at h
    exact absurd h (by simp)
  · rw [if_neg he, if_neg hk] at h
    injection h with h'
    subst h'
    rfl

/-- C6 amended: for linear/cubic, a query strictly above the last knot gets
bracket index n-1, one past the last valid column of the (n-1)-column
coefficient table, and evaluation fails with an out-of-bounds access
(modelled as `none`) instead of completing under an extrapolation policy. -/
theorem upper_extrapolation_errors (x y : List ℚ) (q : ℚ) (kind : String)
    (s0 : Interp) (hk : kind = "linear" ∨ kind = "cubic") (hlen : 2 ≤ x.length)
    (hx : List.Sorted (fun a b => a < b) x)
    (hq : x.getD (x.length - 1) 0 < q)
    (h0 : CachingInterpolant.init x y kind = Except.ok s0) :
    bracketIdx x q = x.length - 1 ∧ call s0 [q] none false = none := by
  have hb := bracketIdx_top x q (by omega) hx hq
  refine ⟨hb, ?_⟩
  rcases hk with rfl | rfl
  · have hs0 : s0 = initState x y "linear" := by
      unfold CachingInterpolant.init at h0
      rw [if_pos (by decide)] at h0
      injection h0 with h'
      exact h'.symm
    subst hs0
    have hcall : call (initState x y "linear") [q] none false
        = (constructCacheS (initState x y "linear") [q]).bind
          (fun s2 => (dispatchKind s2).bind (fun out =>
            if s2.return_float = true
            then Option.map (fun v => (OutVal.scalar v, s2)) out.head?
            else some (OutVal.arr out, s2))) := rfl
    rw [hcall]
    cases hcc : constructCacheS (initState x y "linear") [q] with
    | none => rfl
    | some s2 =>
      have hf := constructCacheS_fields hcc
      have hkind : s2.kind = "linear" := hf.2.1
      have hdata : s2.data = some (CoeffData.twodim (build_linear_interpolant x y)) :=
        hf.2.2.2.1
      have hidxs : s2.idxs = [x.length - 1] := by
        have h1 := constructCacheS_idxs_bracket hcc
          (by rw [show (initState x y "linear").kind = "linear" from rfl]; decide)
        rw [h1]
        show [bracketIdx x q] = [x.length - 1]
        rw [hb]
      have hdisp : dispatchKind s2 = none := by
        unfold dispatchKind
        rw [hkind]
        rw [if_neg (by decide), if_pos rfl]
        obtain ⟨r0, rest, htbl, hlen0⟩ := build_linear_interpolant_head_length x y
        rw [callLinearS_twodim s2 _ hdata, hidxs, htbl]
        rw [fancyCols_single_oob r0 rest _ (by omega)]
        rfl
      rw [Option.some_bind, hdisp]
      rfl
  · have hs0 : s0 = initState x y "cubic" := by
      unfold CachingInterpolant.init at h0
      rw [if_pos (by decide)] at h0
      injection h0 with h'
      exact h'.symm
    subst hs0
    have hcall : call (initState x y "cubic") [q] none false
        = (constructCacheS (initState x y "cubic") [q]).bind
          (fun s2 => (dispatchKind s2).bind (fun out =>
            if s2.return_float = true
            then Option.map (fun v => (OutVal.scalar v, s2)) out.head?
            else some (OutVal.arr out, s2))) := rfl
    rw [hcall]
    cases hcc : constructCacheS (initState x y "cubic") [q] with
    | none => rfl
    | some s2 =>
      have hf := constructCacheS_fields hcc
      have hkind : s2.kind = "cubic" := hf.2.1
      have hdata : s2.data = some (CoeffData.twodim (build_natural_cubic_spline x y)) :=
        hf.2.2.2.1
      have hidxs : s2.idxs = [x.length - 1] := by
        have h1 := constructCacheS_idxs_bracket hcc
          (by rw [show (initState x y "cubic").kind = "cubic" from rfl]; decide)
        rw [h1]
        show [bracketIdx x q] = [x.length - 1]
        rw [hb]
      have hdisp : dispatchKind s2 = none := by
        unfold dispatchKind
        rw [hkind]
        rw [if_pos rfl]
        obtain ⟨r0, rest, htbl, hlen0⟩ := build_natural_cubic_spline_head_length x y
        rw [callCubicS_twodim s2 _ hdata, hidxs, htbl]
        rw [fancyCols_single_oob r0 rest _ (by omega)]
        rfl
      rw [Option.some_bind, hdisp]
      rfl

/-- Witness for C6 amended, at linear kind, knots [0, 1, 2] and query 5. -/
theorem upper_extrapolation_errors_inst :
    bracketIdx [0, 1, 2] 5 = ([0, 1, 2] : List ℚ).length - 1 ∧
    call (initState [0, 1, 2] [0, 1, 0] "linear") [5] none false = none :=
  upper_extrapolation_errors [0, 1, 2] [0, 1, 0] 5 "linear"
    (initState [0, 1, 2] [0, 1, 0] "linear") (Or.inl rfl) (by decide)
    (by decide!) (by decide!) (by rfl)

/-- The locator-cache construction reads only the knot array, the kind and the
scalar flag, so it commutes with replacing the value array and the coefficient
table. -/
lemma constructCacheS_update (s : Interp) (v : List ℚ) (d : Option CoeffData)
    (Q : List ℚ) :
    constructCacheS { s with y_array := v, data := d } Q
      = (constructCacheS s Q).map (fun u => { u with y_array := v, data := d }) := by
  cases s with
  | mk k xa ya dt ix df c rf =>
    unfold constructCacheS
    dsimp only
    by_cases he : xa.isEmpty = true
    · rw [if_pos he, if_pos he]
      rfl
    · rw [if_neg he, if_neg he]
      by_cases hkn : k = "nearest"
      · rw [if_pos hkn, if_pos hkn]
        rfl
      · rw [if_neg hkn, if_neg hkn]
        rfl

/-- C1: for linear or cubic kind, evaluating at Q with caching on and then
evaluating at the same Q with a new value array V2 (still with caching on)
gives exactly the same call result as a freshly constructed interpolant with
value array V2 evaluated at Q without the cache: caching changes no results,
it only avoids recomputing the locator data. -/
theorem cache_value_update_matches_fresh_eval
    (x y v2 Q : List ℚ) (kind : String)
    (hk : kind = "linear" ∨ kind = "cubic")
    (s0 s0f : Interp) (o1 : OutVal) (s1 : Interp)
    (h0 : CachingInterpolant.init x y kind = Except.ok s0)
    (h0f : CachingInterpolant.init x v2 kind = Except.ok s0f)
    (h1 : call s0 Q none true = some (o1, s1)) :
    call s1 Q (some v2) true = call s0f Q none false := by
  have hcont : (["nearest", "linear", "cubic"].contains kind) = true := by
    rcases hk with rfl | rfl <;> decide
  have hs0 : s0 = initState x y kind := by
    unfold CachingInterpolant.init at h0
    rw [if_pos hcont] at h0
    injection h0 with h'
    exact h'.symm
  have hs0f : s0f = initState x v2 kind := by
    unfold CachingInterpolant.init at h0f
    rw [if_pos hcont] at h0f
    injection h0f with h'
    exact h'.symm
  subst hs0
  subst hs0f
  have hst := call_state h1
  rw [updateY_none] at hst
  have hcfalse : ((initState x y kind).cached && true) = false := rfl
  rw [hcfalse, if_neg Bool.false_ne_true] at hst
  have hfields := constructCacheS_fields hst
  have hcond : ((updateY s1 (some v2)).cached && true) = true := by
    rw [updateY_cached, hfields.2.2.2.2.1]
    rfl
  have hu : updateY s1 (some v2)
      = { s1 with y_array := v2, data := build kind x v2 } := by
    rw [updateY_some]
    rw [show s1.kind = kind from hfields.2.1, show s1.x_array = x from hfields.1]
  have hrhs : constructCacheS (initState x v2 kind) Q
      = some { s1 with y_array := v2, data := build kind x v2 } := by
    have hini : initState x v2 kind
        = { initState x y kind with y_array := v2, data := build kind x v2 } := rfl
    rw [hini, constructCacheS_update, hst]
    rfl
  simp only [call]
  rw [updateY_none]
  rw [if_pos hcond]
  rw [Bool.and_false, if_neg Bool.false_ne_true]
  rw [hrhs, hu]

/-- Witness for C1, with linear kind over knots [0, 1, 2, 3], first values
[0, 1, 0, 1], new values [1, 0, 1, 0] and queries [1/2, 5/2]. -/
theorem cache_value_update_matches_fresh_eval_inst :
    call exLin [1 / 2, 5 / 2] (some [1, 0, 1, 0]) true
      = call (initState [0, 1, 2, 3] [1, 0, 1, 0] "linear") [1 / 2, 5 / 2] none false :=
  cache_value_update_matches_fresh_eval [0, 1, 2, 3] [0, 1, 0, 1] [1, 0, 1, 0]
    [1 / 2, 5 / 2] "linear" (Or.inl rfl)
    (initState [0, 1, 2, 3] [0, 1, 0, 1] "linear")
    (initState [0, 1, 2, 3] [1, 0, 1, 0] "linear")
    (OutVal.arr [1 / 2, 1 / 2]) exLin (by rfl) (by rfl) (by decide!)
